import Mathlib

/-!
# Verification of the quache sharded KV store core (quache-go/core/core.go)

Shallow embedding of the Go package `core`:

* values (`any` in Go) are an arbitrary type parameter `V`;
* wall-clock milliseconds (`time.Now().UnixMilli()`) are passed explicitly
  as an `Int` argument to every operation that reads the clock;
* the `float64` TTL field is modelled as `ℚ`;
* a Go `map[string]*ShardEntry` is modelled as an association list in which
  an update (`m[key] = e`) stores the new binding and drops every other
  binding of the same key, so keys are unique by construction;
* the filesystem is modelled at the decoded level: the snapshot file
  `directory/shard-<i>` stores the shard map it encodes.  The byte-level
  json+md5 codec is library code (`encoding/json`, `crypto/md5`), whose
  round-trip contract the decoded-level disk reflects.  `os.WriteFile`
  failures are modelled by an oracle `wfail : Nat → Bool` saying whether
  the write of shard `i` fails.
-/

/-- UTF-8 encoding of one character as a list of byte values
(model of Go's `[]byte(string)` conversion, per code point). -/
def utf8EncodeCharNat (c : Char) : List Nat :=
  let n := c.toNat
  if n < 0x80 then [n]
  else if n < 0x800 then [0xC0 ||| (n >>> 6), 0x80 ||| (n &&& 0x3F)]
  else if n < 0x10000 then
    [0xE0 ||| (n >>> 12), 0x80 ||| ((n >>> 6) &&& 0x3F), 0x80 ||| (n &&& 0x3F)]
  else
    [0xF0 ||| (n >>> 18), 0x80 ||| ((n >>> 12) &&& 0x3F),
      0x80 ||| ((n >>> 6) &&& 0x3F), 0x80 ||| (n &&& 0x3F)]

/-- The byte sequence of a Go string (`[]byte(key)`): UTF-8 encoding. -/
def utf8Bytes (s : String) : List Nat :=
  (s.data.map utf8EncodeCharNat).flatten

/-- One shift-and-conditionally-xor round of the reflected CRC-32
computation with the IEEE polynomial `0xEDB88320`. -/
def crc32Round (c : Nat) : Nat :=
  if c % 2 = 1 then (c / 2) ^^^ 0xEDB88320 else c / 2

/-- Fold one byte into the running CRC (eight rounds), as in the
reflected table-free formulation of `hash/crc32`'s IEEE checksum. -/
def crc32UpdateByte (crc b : Nat) : Nat :=
  crc32Round (crc32Round (crc32Round (crc32Round
    (crc32Round (crc32Round (crc32Round (crc32Round (crc ^^^ b))))))))

/-- `crc32.ChecksumIEEE`: initial value `0xFFFFFFFF`, byte-wise update,
final xor with `0xFFFFFFFF`. -/
def crc32 (bs : List Nat) : Nat :=
  (bs.foldl crc32UpdateByte 0xFFFFFFFF) ^^^ 0xFFFFFFFF

/-- `ShardEntry`: stored value, insertion timestamp (ms), ttl (ms, `float64`
in the source, modelled as `ℚ`; `-1` is the "no expiry" sentinel). -/
structure ShardEntry (V : Type) where
  value : V
  timestamp : Int
  ttl : ℚ
deriving DecidableEq

/-- `value.Ttl > 0 && float64(currentTime-value.Timestamp) > value.Ttl`:
the expiry test shared by `Get` and `Evict`. -/
def ShardEntry.isExpiredAt {V : Type} (e : ShardEntry V) (now : Int) : Prop :=
  e.ttl > 0 ∧ ((now - e.timestamp : Int) : ℚ) > e.ttl

instance {V : Type} (e : ShardEntry V) (now : Int) :
    Decidable (e.isExpiredAt now) :=
  inferInstanceAs (Decidable (_ ∧ _))

/-- Lookup in the shard map (Go `s.Data[key]`): first binding of the key. -/
def findEntry {V : Type} (k : String) :
    List (String × ShardEntry V) → Option (ShardEntry V)
  | [] => none
  | (k', e) :: t => if k' = k then some e else findEntry k t

/-- Removal from the shard map (Go `delete(s.Data, key)`): drops every
binding of the key (reachable maps bind each key at most once). -/
def eraseKey {V : Type} (k : String) (l : List (String × ShardEntry V)) :
    List (String × ShardEntry V) :=
  l.filter (fun p => p.1 ≠ k)

/-- Update of the shard map (Go `s.Data[key] = entry`). -/
def insertEntry {V : Type} (k : String) (e : ShardEntry V)
    (l : List (String × ShardEntry V)) : List (String × ShardEntry V) :=
  (k, e) :: eraseKey k l

/-- A `Shard` is its guarded map (the lock is dropped: all modelled
executions are sequential). -/
structure Shard (V : Type) where
  data : List (String × ShardEntry V)
deriving DecidableEq

/-- `NewShard`: empty map. -/
def NewShard (V : Type) : Shard V := ⟨[]⟩

/-- `Shard.Evict`: removes every entry that is expired at `now`
(`time.Now().UnixMilli()` read once).  On an empty map the loop body
never runs, which the filter reproduces. -/
def Shard.evict {V : Type} (s : Shard V) (now : Int) : Shard V :=
  ⟨s.data.filter (fun p => !decide (p.2.isExpiredAt now))⟩

/-- `Shard.getLength`. -/
def Shard.getLength {V : Type} (s : Shard V) : Nat :=
  s.data.length

/-- `KVStore`: shards, snapshot directory, `shardDimensions` (the
`map[int]int` of last-flushed cardinalities, modelled as a list aligned
with `Shards`). -/
structure KVStore (V : Type) where
  shards : List (Shard V)
  directory : String
  shardDimensions : List Nat

/-- `NewKVStore`: `numShards` empty shards, all dimensions `0`. -/
def NewKVStore (V : Type) (numShards : Nat) (directory : String) : KVStore V :=
  ⟨List.replicate numShards ⟨[]⟩, directory, List.replicate numShards 0⟩

/-- `KVStore.findShard`: `int(crc32.ChecksumIEEE([]byte(key))) % len(kv.Shards)`
(the checksum is below `2^32`, so the Go `int` conversion and `%` agree
with `Nat` mod). -/
def KVStore.findShard {V : Type} (kv : KVStore V) (key : String) : Nat :=
  crc32 (utf8Bytes key) % kv.shards.length

/-- `KVStore.Put`: absent ttl becomes the sentinel `-1`, a present ttl `t`
(seconds) becomes `t * 1000` milliseconds; the routed shard's map is
updated with a fresh entry stamped `now`. -/
def KVStore.put {V : Type} (kv : KVStore V) (key : String) (value : V)
    (ttl : Option ℚ) (now : Int) : KVStore V :=
  let actualTtl : ℚ :=
    match ttl with
    | none => -1
    | some t => t * 1000
  let i := kv.findShard key
  { kv with
    shards := kv.shards.set i
      ⟨insertEntry key ⟨value, now, actualTtl⟩ (kv.shards.getD i ⟨[]⟩).data⟩ }

/-- Result of `KVStore.Get` (`(any, error)` in the source): the value, or
`ExpiredEntryError{key, ttl, elapsed}`, or `KeyNotFoundError{key}`. -/
inductive GetResult (V : Type) where
  | ok (value : V)
  | expired (key : String) (ttl : ℚ) (elapsed : Int)
  | notFound (key : String)
deriving DecidableEq

/-- `KVStore.Get`: routes to the shard, looks the key up, applies the
expiry test.  The method does not mutate the store; the returned second
component is the (unchanged) store state after the call. -/
def KVStore.get {V : Type} (kv : KVStore V) (key : String) (now : Int) :
    GetResult V × KVStore V :=
  let i := kv.findShard key
  match findEntry key (kv.shards.getD i ⟨[]⟩).data with
  | some e =>
    if e.isExpiredAt now then
      (.expired key e.ttl (now - e.timestamp), kv)
    else
      (.ok e.value, kv)
  | none => (.notFound key, kv)

/-- `KVStore.Delete`: removes the key from its routed shard. -/
def KVStore.delete {V : Type} (kv : KVStore V) (key : String) : KVStore V :=
  let i := kv.findShard key
  { kv with
    shards := kv.shards.set i ⟨eraseKey key (kv.shards.getD i ⟨[]⟩).data⟩ }

/-- `KVStore.Cleanup`: `Evict` on every shard in index order.  Each `Evict`
reads the clock; the modelled run passes the read time `now`. -/
def KVStore.cleanup {V : Type} (kv : KVStore V) (now : Int) : KVStore V :=
  { kv with shards := kv.shards.map (fun s => s.evict now) }

/-- The snapshot directory, decoded: position `i` holds the shard map
stored in the file `shard-<i>`, or `none` when that file does not exist. -/
def Disk (V : Type) := Nat → Option (List (String × ShardEntry V))

/-- A directory with no snapshot files. -/
def emptyDisk (V : Type) : Disk V := fun _ => none

/-- Replacing the file `shard-<i>` (`os.WriteFile`). -/
def diskWrite {V : Type} (d : Disk V) (i : Nat)
    (m : List (String × ShardEntry V)) : Disk V :=
  fun j => if j = i then some m else d j

/-- `Shard.Flush` for the file of shard `i`: an empty shard returns ok
without touching the file; otherwise the serialized map replaces the
file, unless the write fails (`wfail i`), in which case the file is left
as it was and an error is returned (`false`). -/
def Shard.flush {V : Type} (s : Shard V) (d : Disk V) (i : Nat)
    (wfail : Nat → Bool) : Disk V × Bool :=
  if s.data.isEmpty then (d, true)
  else if wfail i then (d, false)
  else (diskWrite d i s.data, true)

/-- Outcome of `KVStore.ToDisk`: final `shardDimensions`, final directory
contents, the indices whose file was written (instrumentation recording
each executed `os.WriteFile`, in order), and the index whose flush
failed, if any (`ToDisk`'s returned error). -/
structure ToDiskResult (V : Type) where
  dims : List Nat
  disk : Disk V
  writes : List Nat
  err : Option Nat

/-- The loop of `KVStore.ToDisk`, at shard index `i`: skip the shard when
its length equals `shardDimensions[i]`; otherwise update
`shardDimensions[i]` to the new length and call `Flush`, aborting on the
first flush error. -/
def toDiskGo {V : Type} : List (Shard V) → Nat → List Nat → Disk V →
    (Nat → Bool) → ToDiskResult V
  | [], _, dims, d, _ => ⟨dims, d, [], none⟩
  | s :: rest, i, dims, d, wfail =>
    if dims.getD i 0 = s.data.length then
      toDiskGo rest (i + 1) dims d wfail
    else
      let dims1 := dims.set i s.data.length
      let fr := s.flush d i wfail
      if fr.2 then
        let r := toDiskGo rest (i + 1) dims1 fr.1 wfail
        ⟨r.dims, r.disk, if s.data.isEmpty then r.writes else i :: r.writes, r.err⟩
      else
        ⟨dims1, d, [], some i⟩

/-- `KVStore.ToDisk`: runs the loop over all shards and installs the
updated `shardDimensions` into the store. -/
def KVStore.toDisk {V : Type} (kv : KVStore V) (d : Disk V)
    (wfail : Nat → Bool) : KVStore V × ToDiskResult V :=
  let r := toDiskGo kv.shards 0 kv.shardDimensions d wfail
  ({ kv with shardDimensions := r.dims }, r)

/-- `NewKVStoreFromDisk` on a directory of well-formed snapshots: shard `i`
is loaded from the file `shard-<i>` when it exists and starts empty
otherwise; `shardDimensions[i]` is the loaded cardinality.  (The json+md5
decode of a file that `Flush` wrote succeeds and yields the flushed map,
so on the decoded-level disk the error path of the source is not
reachable.) -/
def NewKVStoreFromDisk (V : Type) (numShards : Nat) (directory : String)
    (d : Disk V) : KVStore V :=
  { shards := (List.range numShards).map
      (fun i =>
        match d i with
        | none => ⟨[]⟩
        | some m => ⟨m⟩),
    directory := directory,
    shardDimensions := (List.range numShards).map
      (fun i =>
        match d i with
        | none => 0
        | some m => m.length) }

/-- One store operation, for stating properties over operation sequences.
`Get` is omitted: it returns the store unchanged (`KVStore.get`). -/
inductive Op (V : Type) where
  | put (key : String) (value : V) (ttl : Option ℚ) (now : Int)
  | delete (key : String)
  | cleanup (now : Int)
  | toDisk (wfail : Nat → Bool)

/-- Executing one operation on the store plus its snapshot directory. -/
def execOp {V : Type} (st : KVStore V × Disk V) (op : Op V) :
    KVStore V × Disk V :=
  match op with
  | .put k v t n => (st.1.put k v t n, st.2)
  | .delete k => (st.1.delete k, st.2)
  | .cleanup n => (st.1.cleanup n, st.2)
  | .toDisk w =>
    let r := st.1.toDisk st.2 w
    (r.1, r.2.disk)

/-- Executing a sequence of operations, oldest first. -/
def execOps {V : Type} (st : KVStore V × Disk V) (ops : List (Op V)) :
    KVStore V × Disk V :=
  ops.foldl execOp st

/-- Scenario S5 of the spec: a fresh `N`-shard store after one
`Put(k, v, None)` at time `t`. -/
def putOnce (V : Type) (N : Nat) (dir k : String) (v : V) (t : Int) :
    KVStore V :=
  (NewKVStore V N dir).put k v none t

/-- Scenario S5 continued: the first `ToDisk` of `putOnce`, into an empty
directory, with no I/O failures. -/
def putOnceFlushed (V : Type) (N : Nat) (dir k : String) (v : V) (t : Int) :
    KVStore V × ToDiskResult V :=
  (putOnce V N dir k v t).toDisk (emptyDisk V) (fun _ => false)

/-! ## Basic lemmas about the shard map -/

theorem findEntry_cons {V : Type} (k a : String) (b : ShardEntry V)
    (t : List (String × ShardEntry V)) :
    findEntry k ((a, b) :: t) = if a = k then some b else findEntry k t := rfl

theorem eraseKey_cons {V : Type} (k a : String) (b : ShardEntry V)
    (t : List (String × ShardEntry V)) :
    eraseKey k ((a, b) :: t) =
      if a = k then eraseKey k t else (a, b) :: eraseKey k t := by
  by_cases hak : a = k <;> simp [eraseKey, List.filter_cons, hak]

theorem findEntry_insertEntry_self {V : Type} (k : String) (e : ShardEntry V)
    (l : List (String × ShardEntry V)) :
    findEntry k (insertEntry k e l) = some e := by
  simp [insertEntry, findEntry_cons]

theorem findEntry_eraseKey_ne {V : Type} (k k' : String)
    (l : List (String × ShardEntry V)) (h : k' ≠ k) :
    findEntry k' (eraseKey k l) = findEntry k' l := by
  induction l with
  | nil => rfl
  | cons p t ih =>
    obtain ⟨a, b⟩ := p
    rw [eraseKey_cons]
    by_cases hak : a = k
    · have hak' : ¬a = k' := by rw [hak]; exact fun hc => h hc.symm
      rw [if_pos hak, findEntry_cons, if_neg hak', ih]
    · rw [if_neg hak, findEntry_cons, findEntry_cons, ih]

theorem findEntry_insertEntry_ne {V : Type} (k k' : String) (e : ShardEntry V)
    (l : List (String × ShardEntry V)) (h : k' ≠ k) :
    findEntry k' (insertEntry k e l) = findEntry k' l := by
  rw [insertEntry, findEntry_cons, if_neg (fun hc : k = k' => h hc.symm)]
  exact findEntry_eraseKey_ne k k' l h

theorem findEntry_eraseKey_self {V : Type} (k : String)
    (l : List (String × ShardEntry V)) :
    findEntry k (eraseKey k l) = none := by
  induction l with
  | nil => rfl
  | cons p t ih =>
    obtain ⟨a, b⟩ := p
    rw [eraseKey_cons]
    by_cases hak : a = k
    · rw [if_pos hak, ih]
    · rw [if_neg hak, findEntry_cons, if_neg hak, ih]

theorem findEntry_filter {V : Type} (k : String) (e : ShardEntry V)
    (p : String × ShardEntry V → Bool) (l : List (String × ShardEntry V))
    (hfind : findEntry k l = some e) (hp : p (k, e) = true) :
    findEntry k (l.filter p) = some e := by
  induction l with
  | nil => simp [findEntry] at hfind
  | cons q t ih =>
    obtain ⟨a, b⟩ := q
    rw [findEntry_cons] at hfind
    by_cases hak : a = k
    · subst hak
      rw [if_pos rfl, Option.some.injEq] at hfind
      subst hfind
      rw [List.filter_cons, if_pos hp, findEntry_cons, if_pos rfl]
    · rw [if_neg hak] at hfind
      rw [List.filter_cons]
      by_cases hpq : p (a, b) = true
      · rw [if_pos hpq, findEntry_cons, if_neg hak]
        exact ih hfind
      · rw [if_neg hpq]
        exact ih hfind

theorem mem_filter_of_mem {V : Type} (q : String × ShardEntry V)
    (p : String × ShardEntry V → Bool) (l : List (String × ShardEntry V))
    (hm : q ∈ l) (hp : p q = true) : q ∈ l.filter p :=
  List.mem_filter.mpr ⟨hm, hp⟩

/-! ## Basic lemmas about list access -/

theorem getD_set_self {α : Type} (l : List α) (i : Nat) (a d : α)
    (h : i < l.length) : (l.set i a).getD i d = a := by
  induction l generalizing i with
  | nil => simp at h
  | cons x t ih =>
    cases i with
    | zero => rfl
    | succ n =>
      simp only [List.set, List.getD_cons_succ]
      exact ih n (by simpa using h)

theorem getD_set_ne {α : Type} (l : List α) (i j : Nat) (a d : α)
    (h : j ≠ i) : (l.set i a).getD j d = l.getD j d := by
  induction l generalizing i j with
  | nil => rfl
  | cons x t ih =>
    cases i with
    | zero =>
      cases j with
      | zero => exact absurd rfl h
      | succ m => rfl
    | succ n =>
      cases j with
      | zero => rfl
      | succ m =>
        simp only [List.set, List.getD_cons_succ]
        exact ih n m (fun hc => h (by rw [hc]))

theorem getD_replicate_zero (n i : Nat) :
    (List.replicate n (0 : Nat)).getD i 0 = 0 := by
  induction n generalizing i with
  | zero => cases i <;> rfl
  | succ m ih =>
    cases i with
    | zero => rfl
    | succ j => simp [List.replicate, ih j]

theorem getD_map_range {α : Type} (f : Nat → α) (n i : Nat) (d : α)
    (h : i < n) : ((List.range n).map f).getD i d = f i := by
  have h1 : ((List.range n).map f).getD i d = ((List.range n).map f).get ⟨i, by simpa using h⟩ := by
    rw [List.getD_eq_getElem?_getD, List.getElem?_eq_getElem (by simpa using h)]
    rfl
  rw [h1]
  simp

/-! ## Frame lemmas for the store operations -/

theorem put_dims {V : Type} (kv : KVStore V) (k : String) (v : V)
    (t : Option ℚ) (n : Int) :
    (kv.put k v t n).shardDimensions = kv.shardDimensions := rfl

theorem put_length {V : Type} (kv : KVStore V) (k : String) (v : V)
    (t : Option ℚ) (n : Int) :
    (kv.put k v t n).shards.length = kv.shards.length := by
  simp [KVStore.put]

theorem put_directory {V : Type} (kv : KVStore V) (k : String) (v : V)
    (t : Option ℚ) (n : Int) :
    (kv.put k v t n).directory = kv.directory := rfl

theorem delete_dims {V : Type} (kv : KVStore V) (k : String) :
    (kv.delete k).shardDimensions = kv.shardDimensions := rfl

theorem delete_length {V : Type} (kv : KVStore V) (k : String) :
    (kv.delete k).shards.length = kv.shards.length := by
  simp [KVStore.delete]

theorem cleanup_dims {V : Type} (kv : KVStore V) (now : Int) :
    (kv.cleanup now).shardDimensions = kv.shardDimensions := rfl

theorem cleanup_length {V : Type} (kv : KVStore V) (now : Int) :
    (kv.cleanup now).shards.length = kv.shards.length := by
  simp [KVStore.cleanup]

theorem toDisk_shards {V : Type} (kv : KVStore V) (d : Disk V)
    (w : Nat → Bool) : (kv.toDisk d w).1.shards = kv.shards := rfl

theorem get_state_unchanged {V : Type} (kv : KVStore V) (k : String)
    (now : Int) : (kv.get k now).2 = kv := by
  cases h : findEntry k (kv.shards[kv.findShard k]?.getD ⟨[]⟩).data with
  | none => simp [KVStore.get, h]
  | some e =>
    by_cases he : e.isExpiredAt now <;> simp [KVStore.get, h, he]

theorem getD_of_length_le {α : Type} (l : List α) (i : Nat) (d : α)
    (h : l.length ≤ i) : l.getD i d = d := by
  induction l generalizing i with
  | nil => cases i <;> rfl
  | cons x t ih =>
    cases i with
    | zero => simp at h
    | succ j =>
      simp only [List.getD_cons_succ]
      exact ih j (by simpa using h)

theorem getD_replicate {α : Type} (x : α) (n i : Nat) :
    (List.replicate n x).getD i x = x := by
  induction n generalizing i with
  | zero => cases i <;> rfl
  | succ m ih =>
    cases i with
    | zero => rfl
    | succ j => simp [List.replicate, ih j]

/-! ## Lemmas about the ToDisk loop -/

theorem toDiskGo_dims_length {V : Type} (shards : List (Shard V)) :
    ∀ (i : Nat) (dims : List Nat) (d : Disk V) (w : Nat → Bool),
      (toDiskGo shards i dims d w).dims.length = dims.length := by
  induction shards with
  | nil => intro i dims d w; rfl
  | cons s rest ih =>
    intro i dims d w
    by_cases hskip : dims[i]?.getD 0 = s.data.length
    · simp [toDiskGo, hskip, ih]
    · by_cases hemp : s.data.isEmpty
      · simp [toDiskGo, Shard.flush, hskip, hemp, ih]
      · by_cases hw : w i
        · simp [toDiskGo, Shard.flush, hskip, hemp, hw]
        · simp [toDiskGo, Shard.flush, hskip, hemp, hw, ih]

theorem toDiskGo_frame_low {V : Type} (shards : List (Shard V)) :
    ∀ (i : Nat) (dims : List Nat) (d : Disk V) (w : Nat → Bool) (j : Nat),
      j < i →
      ((toDiskGo shards i dims d w).dims.getD j 0 = dims.getD j 0 ∧
        (toDiskGo shards i dims d w).disk j = d j ∧
        j ∉ (toDiskGo shards i dims d w).writes) := by
  induction shards with
  | nil =>
    intro i dims d w j _
    exact ⟨rfl, rfl, by simp [toDiskGo]⟩
  | cons s rest ih =>
    intro i dims d w j hj
    have hj1 : j < i + 1 := Nat.lt_succ_of_lt hj
    have hji : j ≠ i := Nat.ne_of_lt hj
    by_cases hskip : dims[i]?.getD 0 = s.data.length
    · have h := ih (i + 1) dims d w j hj1
      exact ⟨by simpa [toDiskGo, hskip] using h.1,
        by simpa [toDiskGo, hskip] using h.2.1,
        by simpa [toDiskGo, hskip] using h.2.2⟩
    · have hset : (dims.set i s.data.length).getD j 0 = dims.getD j 0 :=
        getD_set_ne _ _ _ _ _ hji
      by_cases hemp : s.data.isEmpty
      · have h := ih (i + 1) (dims.set i s.data.length) d w j hj1
        exact ⟨by simpa [toDiskGo, Shard.flush, hskip, hemp] using h.1.trans hset,
          by simpa [toDiskGo, Shard.flush, hskip, hemp] using h.2.1,
          by simpa [toDiskGo, Shard.flush, hskip, hemp] using h.2.2⟩
      · by_cases hw : w i
        · exact ⟨by simpa [toDiskGo, Shard.flush, hskip, hemp, hw] using hset,
            by simp [toDiskGo, Shard.flush, hskip, hemp, hw],
            by simp [toDiskGo, Shard.flush, hskip, hemp, hw]⟩
        · have h := ih (i + 1) (dims.set i s.data.length)
            (diskWrite d i s.data) w j hj1
          have hdw : diskWrite d i s.data j = d j := by
            simp [diskWrite, hji]
          exact ⟨by simpa [toDiskGo, Shard.flush, hskip, hemp, hw] using h.1.trans hset,
            by simpa [toDiskGo, Shard.flush, hskip, hemp, hw] using h.2.1.trans hdw,
            by simpa [toDiskGo, Shard.flush, hskip, hemp, hw, not_or] using
              ⟨hji, h.2.2⟩⟩

theorem toDiskGo_skip_frame {V : Type} (shards : List (Shard V)) :
    ∀ (i : Nat) (dims : List Nat) (d : Disk V) (w : Nat → Bool) (p : Nat),
      p < shards.length →
      dims.getD (i + p) 0 = (shards.getD p ⟨[]⟩).data.length →
      ((toDiskGo shards i dims d w).dims.getD (i + p) 0 =
          dims.getD (i + p) 0 ∧
        (toDiskGo shards i dims d w).disk (i + p) = d (i + p) ∧
        (i + p) ∉ (toDiskGo shards i dims d w).writes) := by
  induction shards with
  | nil =>
    intro i dims d w p hp _
    simp at hp
  | cons s rest ih =>
    intro i dims d w p hp hlen
    cases p with
    | zero =>
      have hskip : dims[i]?.getD 0 = s.data.length := by simpa using hlen
      have h := toDiskGo_frame_low rest (i + 1) dims d w i (Nat.lt_succ_self i)
      exact ⟨by simpa [toDiskGo, hskip] using h.1,
        by simpa [toDiskGo, hskip] using h.2.1,
        by simpa [toDiskGo, hskip] using h.2.2⟩
    | succ q =>
      have hq : q < rest.length := by simpa using hp
      have hidx : i + (q + 1) = (i + 1) + q := by omega
      have hlen' : dims.getD ((i + 1) + q) 0 = (rest.getD q ⟨[]⟩).data.length := by
        rw [← hidx]
        simpa using hlen
      by_cases hskip : dims[i]?.getD 0 = s.data.length
      · have h := ih (i + 1) dims d w q hq hlen'
        rw [hidx]
        exact ⟨by simpa [toDiskGo, hskip] using h.1,
          by simpa [toDiskGo, hskip] using h.2.1,
          by simpa [toDiskGo, hskip] using h.2.2⟩
      · have hset : (dims.set i s.data.length).getD ((i + 1) + q) 0 =
            dims.getD ((i + 1) + q) 0 := getD_set_ne _ _ _ _ _ (by omega)
        have hlen2 : (dims.set i s.data.length).getD ((i + 1) + q) 0 =
            (rest.getD q ⟨[]⟩).data.length := hset.trans hlen'
        by_cases hemp : s.data.isEmpty
        · have h := ih (i + 1) (dims.set i s.data.length) d w q hq hlen2
          rw [hidx]
          exact ⟨by simpa [toDiskGo, Shard.flush, hskip, hemp] using
              h.1.trans hset,
            by simpa [toDiskGo, Shard.flush, hskip, hemp] using h.2.1,
            by simpa [toDiskGo, Shard.flush, hskip, hemp] using h.2.2⟩
        · by_cases hw : w i
          · rw [hidx]
            exact ⟨by simpa [toDiskGo, Shard.flush, hskip, hemp, hw] using hset,
              by simp [toDiskGo, Shard.flush, hskip, hemp, hw],
              by simp [toDiskGo, Shard.flush, hskip, hemp, hw]⟩
          · have hdw : diskWrite d i s.data ((i + 1) + q) = d ((i + 1) + q) :=
              if_neg (by omega)
            have h := ih (i + 1) (dims.set i s.data.length)
              (diskWrite d i s.data) w q hq hlen2
            rw [hidx]
            exact ⟨by simpa [toDiskGo, Shard.flush, hskip, hemp, hw] using
                h.1.trans hset,
              by simpa [toDiskGo, Shard.flush, hskip, hemp, hw] using
                h.2.1.trans hdw,
              by simpa [toDiskGo, Shard.flush, hskip, hemp, hw, not_or] using
                ⟨(by omega : (i + 1) + q ≠ i), h.2.2⟩⟩

theorem toDiskGo_all_skip {V : Type} (shards : List (Shard V)) :
    ∀ (i : Nat) (dims : List Nat) (d : Disk V) (w : Nat → Bool),
      (∀ p, p < shards.length →
        dims.getD (i + p) 0 = (shards.getD p ⟨[]⟩).data.length) →
      toDiskGo shards i dims d w = ⟨dims, d, [], none⟩ := by
  induction shards with
  | nil =>
    intro i dims d w _
    rfl
  | cons s rest ih =>
    intro i dims d w h
    have hskip : dims[i]?.getD 0 = s.data.length := by
      simpa using h 0 (by simp)
    have h' : ∀ p, p < rest.length →
        dims.getD ((i + 1) + p) 0 = (rest.getD p ⟨[]⟩).data.length := by
      intro p hp
      have h2 := h (p + 1) (by simpa using Nat.succ_lt_succ hp)
      rw [show (i + 1) + p = i + (p + 1) by omega]
      simpa using h2
    simp [toDiskGo, hskip, ih (i + 1) dims d w h']

theorem toDiskGo_dims_of_success {V : Type} (shards : List (Shard V)) :
    ∀ (i : Nat) (dims : List Nat) (d : Disk V) (w : Nat → Bool),
      (toDiskGo shards i dims d w).err = none →
      i + shards.length ≤ dims.length →
      ∀ p, p < shards.length →
        (toDiskGo shards i dims d w).dims.getD (i + p) 0 =
          (shards.getD p ⟨[]⟩).data.length := by
  induction shards with
  | nil =>
    intro i dims d w _ _ p hp
    simp at hp
  | cons s rest ih =>
    intro i dims d w herr hlen p hp
    have hlen1 : i + (rest.length + 1) ≤ dims.length := by simpa using hlen
    have hiD : i < dims.length := by omega
    by_cases hskip : dims[i]?.getD 0 = s.data.length
    · have herr' : (toDiskGo rest (i + 1) dims d w).err = none := by
        simpa [toDiskGo, hskip] using herr
      cases p with
      | zero =>
        have h := (toDiskGo_frame_low rest (i + 1) dims d w i
          (Nat.lt_succ_self i)).1
        have h2 : dims.getD i 0 = s.data.length := by simpa using hskip
        simpa [toDiskGo, hskip] using h.trans h2
      | succ q =>
        have hq : q < rest.length := by simpa using hp
        have hidx : i + (q + 1) = (i + 1) + q := by omega
        have h := ih (i + 1) dims d w herr' (by omega) q hq
        rw [hidx]
        simpa [toDiskGo, hskip] using h
    · by_cases hemp : s.data.isEmpty
      · have herr' : (toDiskGo rest (i + 1) (dims.set i s.data.length) d w).err
            = none := by
          simpa [toDiskGo, Shard.flush, hskip, hemp] using herr
        cases p with
        | zero =>
          have h := (toDiskGo_frame_low rest (i + 1)
            (dims.set i s.data.length) d w i (Nat.lt_succ_self i)).1
          have hself : (dims.set i s.data.length).getD i 0 = s.data.length :=
            getD_set_self _ _ _ _ hiD
          simpa [toDiskGo, Shard.flush, hskip, hemp] using h.trans hself
        | succ q =>
          have hq : q < rest.length := by simpa using hp
          have hidx : i + (q + 1) = (i + 1) + q := by omega
          have hlen' : (i + 1) + rest.length ≤
              (dims.set i s.data.length).length := by
            simp only [List.length_set]
            omega
          have h := ih (i + 1) (dims.set i s.data.length) d w herr' hlen' q hq
          rw [hidx]
          simpa [toDiskGo, Shard.flush, hskip, hemp] using h
      · by_cases hw : w i
        · exfalso
          simp [toDiskGo, Shard.flush, hskip, hemp, hw] at herr
        · have herr' : (toDiskGo rest (i + 1) (dims.set i s.data.length)
              (diskWrite d i s.data) w).err = none := by
            simpa [toDiskGo, Shard.flush, hskip, hemp, hw] using herr
          cases p with
          | zero =>
            have h := (toDiskGo_frame_low rest (i + 1)
              (dims.set i s.data.length) (diskWrite d i s.data) w i
              (Nat.lt_succ_self i)).1
            have hself : (dims.set i s.data.length).getD i 0 = s.data.length :=
              getD_set_self _ _ _ _ hiD
            simpa [toDiskGo, Shard.flush, hskip, hemp, hw] using h.trans hself
          | succ q =>
            have hq : q < rest.length := by simpa using hp
            have hidx : i + (q + 1) = (i + 1) + q := by omega
            have hlen' : (i + 1) + rest.length ≤
                (dims.set i s.data.length).length := by
              simp only [List.length_set]
              omega
            have h := ih (i + 1) (dims.set i s.data.length)
              (diskWrite d i s.data) w herr' hlen' q hq
            rw [hidx]
            simpa [toDiskGo, Shard.flush, hskip, hemp, hw] using h

theorem toDiskGo_zero_dims {V : Type} (shards : List (Shard V)) :
    ∀ (i : Nat) (dims : List Nat) (d : Disk V) (w : Nat → Bool),
      (∀ j, w j = false) →
      (∀ p, p < shards.length → dims.getD (i + p) 0 = 0) →
      ((toDiskGo shards i dims d w).err = none ∧
        ∀ p, p < shards.length →
          (toDiskGo shards i dims d w).disk (i + p) =
            (if (shards.getD p ⟨[]⟩).data.isEmpty then d (i + p)
              else some (shards.getD p ⟨[]⟩).data)) := by
  induction shards with
  | nil =>
    intro i dims d w _ _
    exact ⟨rfl, fun p hp => by simp at hp⟩
  | cons s rest ih =>
    intro i dims d w hwf hdims
    have h0 : dims.getD i 0 = 0 := by simpa using hdims 0 (by simp)
    have hdims' : ∀ p, p < rest.length → dims.getD ((i + 1) + p) 0 = 0 := by
      intro p hp
      rw [show (i + 1) + p = i + (p + 1) by omega]
      exact hdims (p + 1) (by simpa using Nat.succ_lt_succ hp)
    by_cases hemp : s.data.isEmpty
    · have hnil : s.data = [] := List.isEmpty_iff.mp hemp
      have hskip : dims[i]?.getD 0 = s.data.length := by
        rw [← List.getD_eq_getElem?_getD, h0, hnil]
        rfl
      have h := ih (i + 1) dims d w hwf hdims'
      refine ⟨by simpa [toDiskGo, hskip] using h.1, ?_⟩
      intro p hp
      cases p with
      | zero =>
        have hf := (toDiskGo_frame_low rest (i + 1) dims d w i
          (Nat.lt_succ_self i)).2.1
        simpa [toDiskGo, hskip, hemp] using hf
      | succ q =>
        have hq : q < rest.length := by simpa using hp
        have hidx : i + (q + 1) = (i + 1) + q := by omega
        rw [hidx]
        simpa [toDiskGo, hskip] using h.2 q hq
    · have hlenpos : s.data.length ≠ 0 := by
        intro hc
        rw [List.length_eq_zero.mp hc] at hemp
        simp at hemp
      have hskip : ¬dims[i]?.getD 0 = s.data.length := by
        rw [← List.getD_eq_getElem?_getD, h0]
        exact fun hc => hlenpos hc.symm
      have hw : w i = false := hwf i
      have h := ih (i + 1) (dims.set i s.data.length) (diskWrite d i s.data) w
        hwf (by
          intro p hp
          rw [getD_set_ne _ _ _ _ _ (by omega)]
          exact hdims' p hp)
      refine ⟨by simpa [toDiskGo, Shard.flush, hskip, hemp, hw] using h.1, ?_⟩
      intro p hp
      cases p with
      | zero =>
        have hf := (toDiskGo_frame_low rest (i + 1) (dims.set i s.data.length)
          (diskWrite d i s.data) w i (Nat.lt_succ_self i)).2.1
        have hdw : diskWrite d i s.data i = some s.data := if_pos rfl
        simpa [toDiskGo, Shard.flush, hskip, hemp, hw] using hf.trans hdw
      | succ q =>
        have hq : q < rest.length := by simpa using hp
        have hidx : i + (q + 1) = (i + 1) + q := by omega
        have hdw : diskWrite d i s.data ((i + 1) + q) = d ((i + 1) + q) :=
          if_neg (by omega)
        have h2 := h.2 q hq
        rw [hdw] at h2
        rw [hidx]
        simpa [toDiskGo, Shard.flush, hskip, hemp, hw] using h2

theorem toDiskGo_err_some {V : Type} (shards : List (Shard V)) :
    ∀ (i : Nat) (dims : List Nat) (d : Disk V) (w : Nat → Bool) (j : Nat),
      (toDiskGo shards i dims d w).err = some j →
      i + shards.length ≤ dims.length →
      ∃ p, p < shards.length ∧ j = i + p ∧
        w j = true ∧
        (shards.getD p ⟨[]⟩).data.isEmpty = false ∧
        dims.getD j 0 ≠ (shards.getD p ⟨[]⟩).data.length ∧
        (toDiskGo shards i dims d w).dims.getD j 0 =
          (shards.getD p ⟨[]⟩).data.length ∧
        (toDiskGo shards i dims d w).disk j = d j ∧
        j ∉ (toDiskGo shards i dims d w).writes := by
  induction shards with
  | nil =>
    intro i dims d w j herr _
    simp [toDiskGo] at herr
  | cons s rest ih =>
    intro i dims d w j herr hlen
    have hlen1 : i + (rest.length + 1) ≤ dims.length := by simpa using hlen
    by_cases hskip : dims[i]?.getD 0 = s.data.length
    · have herr' : (toDiskGo rest (i + 1) dims d w).err = some j := by
        simpa [toDiskGo, hskip] using herr
      obtain ⟨p, hp, hj, hwj, hne, hdne, hdims, hdisk, hwr⟩ :=
        ih (i + 1) dims d w j herr' (by omega)
      refine ⟨p + 1, by simpa using Nat.succ_lt_succ hp, by omega, hwj,
        by simpa using hne, by simpa using hdne, ?_, ?_, ?_⟩
      · simpa [toDiskGo, hskip] using hdims
      · simpa [toDiskGo, hskip] using hdisk
      · simpa [toDiskGo, hskip] using hwr
    · by_cases hemp : s.data.isEmpty
      · have herr' : (toDiskGo rest (i + 1) (dims.set i s.data.length) d
            w).err = some j := by
          simpa [toDiskGo, Shard.flush, hskip, hemp] using herr
        obtain ⟨p, hp, hj, hwj, hne, hdne, hdims, hdisk, hwr⟩ :=
          ih (i + 1) (dims.set i s.data.length) d w j herr'
            (by simp only [List.length_set]; omega)
        have hjne : j ≠ i := by omega
        have hset := getD_set_ne dims i j s.data.length 0 hjne
        refine ⟨p + 1, by simpa using Nat.succ_lt_succ hp, by omega, hwj,
          by simpa using hne, ?_, ?_, ?_, ?_⟩
        · rw [← hset]
          simpa using hdne
        · simpa [toDiskGo, Shard.flush, hskip, hemp] using hdims
        · simpa [toDiskGo, Shard.flush, hskip, hemp] using hdisk
        · simpa [toDiskGo, Shard.flush, hskip, hemp] using hwr
      · by_cases hw : w i
        · have hji : i = j := by
            have h2 : (some i : Option Nat) = some j := by
              rw [← herr]
              simp [toDiskGo, Shard.flush, hskip, hemp, hw]
            exact Option.some.inj h2
          subst hji
          refine ⟨0, by simp, by omega, hw, by simpa using hemp,
            by simpa using hskip, ?_,
            by simp [toDiskGo, Shard.flush, hskip, hemp, hw],
            by simp [toDiskGo, Shard.flush, hskip, hemp, hw]⟩
          simpa [toDiskGo, Shard.flush, hskip, hemp, hw] using
            getD_set_self dims i s.data.length 0 (by omega)
        · have herr' : (toDiskGo rest (i + 1) (dims.set i s.data.length)
              (diskWrite d i s.data) w).err = some j := by
            simpa [toDiskGo, Shard.flush, hskip, hemp, hw] using herr
          obtain ⟨p, hp, hj, hwj, hne, hdne, hdims, hdisk, hwr⟩ :=
            ih (i + 1) (dims.set i s.data.length) (diskWrite d i s.data) w j
              herr' (by simp only [List.length_set]; omega)
          have hjne : j ≠ i := by omega
          have hset := getD_set_ne dims i j s.data.length 0 hjne
          have hdw : diskWrite d i s.data j = d j := if_neg hjne
          refine ⟨p + 1, by simpa using Nat.succ_lt_succ hp, by omega, hwj,
            by simpa using hne, ?_, ?_, ?_, ?_⟩
          · rw [← hset]
            simpa using hdne
          · simpa [toDiskGo, Shard.flush, hskip, hemp, hw] using hdims
          · simpa [toDiskGo, Shard.flush, hskip, hemp, hw] using
              hdisk.trans hdw
          · simpa [toDiskGo, Shard.flush, hskip, hemp, hw, not_or] using
              ⟨hjne, hwr⟩

theorem toDiskGo_frame_high {V : Type} (shards : List (Shard V)) :
    ∀ (i : Nat) (dims : List Nat) (d : Disk V) (w : Nat → Bool) (j : Nat),
      i + shards.length ≤ j →
      ((toDiskGo shards i dims d w).dims.getD j 0 = dims.getD j 0 ∧
        (toDiskGo shards i dims d w).disk j = d j ∧
        j ∉ (toDiskGo shards i dims d w).writes) := by
  induction shards with
  | nil =>
    intro i dims d w j _
    exact ⟨rfl, rfl, by simp [toDiskGo]⟩
  | cons s rest ih =>
    intro i dims d w j hj
    have hj0 : i + (rest.length + 1) ≤ j := by simpa using hj
    have hj1 : (i + 1) + rest.length ≤ j := by omega
    have hji : j ≠ i := by omega
    have hset : (dims.set i s.data.length).getD j 0 = dims.getD j 0 :=
      getD_set_ne _ _ _ _ _ hji
    by_cases hskip : dims[i]?.getD 0 = s.data.length
    · have h := ih (i + 1) dims d w j hj1
      exact ⟨by simpa [toDiskGo, hskip] using h.1,
        by simpa [toDiskGo, hskip] using h.2.1,
        by simpa [toDiskGo, hskip] using h.2.2⟩
    · by_cases hemp : s.data.isEmpty
      · have h := ih (i + 1) (dims.set i s.data.length) d w j hj1
        exact ⟨by simpa [toDiskGo, Shard.flush, hskip, hemp] using
            h.1.trans hset,
          by simpa [toDiskGo, Shard.flush, hskip, hemp] using h.2.1,
          by simpa [toDiskGo, Shard.flush, hskip, hemp] using h.2.2⟩
      · by_cases hw : w i
        · exact ⟨by simpa [toDiskGo, Shard.flush, hskip, hemp, hw] using hset,
            by simp [toDiskGo, Shard.flush, hskip, hemp, hw],
            by simp [toDiskGo, Shard.flush, hskip, hemp, hw]⟩
        · have h := ih (i + 1) (dims.set i s.data.length)
            (diskWrite d i s.data) w j hj1
          have hdw : diskWrite d i s.data j = d j := if_neg hji
          exact ⟨by simpa [toDiskGo, Shard.flush, hskip, hemp, hw] using
              h.1.trans hset,
            by simpa [toDiskGo, Shard.flush, hskip, hemp, hw] using
              h.2.1.trans hdw,
            by simpa [toDiskGo, Shard.flush, hskip, hemp, hw, not_or] using
              ⟨hji, h.2.2⟩⟩

theorem toDiskGo_empty_frame {V : Type} (shards : List (Shard V)) :
    ∀ (i : Nat) (dims : List Nat) (d : Disk V) (w : Nat → Bool) (p : Nat),
      p < shards.length →
      (shards.getD p ⟨[]⟩).data = [] →
      ((toDiskGo shards i dims d w).disk (i + p) = d (i + p) ∧
        (i + p) ∉ (toDiskGo shards i dims d w).writes) := by
  induction shards with
  | nil =>
    intro i dims d w p hp _
    simp at hp
  | cons s rest ih =>
    intro i dims d w p hp hnil
    cases p with
    | zero =>
      have hnil0 : s.data = [] := by simpa using hnil
      have hemp : s.data.isEmpty = true := by simp [hnil0]
      by_cases hskip : dims[i]?.getD 0 = s.data.length
      · have h := toDiskGo_frame_low rest (i + 1) dims d w i
          (Nat.lt_succ_self i)
        exact ⟨by simpa [toDiskGo, hskip] using h.2.1,
          by simpa [toDiskGo, hskip] using h.2.2⟩
      · have h := toDiskGo_frame_low rest (i + 1) (dims.set i s.data.length)
          d w i (Nat.lt_succ_self i)
        exact ⟨by simpa [toDiskGo, Shard.flush, hskip, hemp] using h.2.1,
          by simpa [toDiskGo, Shard.flush, hskip, hemp] using h.2.2⟩
    | succ q =>
      have hq : q < rest.length := by simpa using hp
      have hnil' : (rest.getD q ⟨[]⟩).data = [] := by simpa using hnil
      have hidx : i + (q + 1) = (i + 1) + q := by omega
      by_cases hskip : dims[i]?.getD 0 = s.data.length
      · have h := ih (i + 1) dims d w q hq hnil'
        rw [hidx]
        exact ⟨by simpa [toDiskGo, hskip] using h.1,
          by simpa [toDiskGo, hskip] using h.2⟩
      · by_cases hemp : s.data.isEmpty
        · have h := ih (i + 1) (dims.set i s.data.length) d w q hq hnil'
          rw [hidx]
          exact ⟨by simpa [toDiskGo, Shard.flush, hskip, hemp] using h.1,
            by simpa [toDiskGo, Shard.flush, hskip, hemp] using h.2⟩
        · by_cases hw : w i
          · rw [hidx]
            exact ⟨by simp [toDiskGo, Shard.flush, hskip, hemp, hw],
              by simp [toDiskGo, Shard.flush, hskip, hemp, hw]⟩
          · have h := ih (i + 1) (dims.set i s.data.length)
              (diskWrite d i s.data) w q hq hnil'
            have hdw : diskWrite d i s.data ((i + 1) + q) = d ((i + 1) + q) :=
              if_neg (by omega)
            rw [hidx]
            exact ⟨by simpa [toDiskGo, Shard.flush, hskip, hemp, hw] using
                h.1.trans hdw,
              by simpa [toDiskGo, Shard.flush, hskip, hemp, hw, not_or] using
                ⟨(by omega : (i + 1) + q ≠ i), h.2⟩⟩

theorem toDiskGo_noFail_err {V : Type} (shards : List (Shard V)) :
    ∀ (i : Nat) (dims : List Nat) (d : Disk V),
      (toDiskGo shards i dims d (fun _ => false)).err = none := by
  induction shards with
  | nil => intro i dims d; rfl
  | cons s rest ih =>
    intro i dims d
    by_cases hskip : dims[i]?.getD 0 = s.data.length
    · simpa [toDiskGo, hskip] using ih (i + 1) dims d
    · by_cases hemp : s.data.isEmpty
      · simpa [toDiskGo, Shard.flush, hskip, hemp] using
          ih (i + 1) (dims.set i s.data.length) d
      · simpa [toDiskGo, Shard.flush, hskip, hemp] using
          ih (i + 1) (dims.set i s.data.length) (diskWrite d i s.data)

/-! ## Lookup lemmas for the store operations -/

theorem getD_map_evict {V : Type} (l : List (Shard V)) (now : Int) (i : Nat) :
    ((l.map (fun s : Shard V => s.evict now)).getD i ⟨[]⟩).data =
      (l.getD i ⟨[]⟩).data.filter (fun p => !decide (p.2.isExpiredAt now)) := by
  induction l generalizing i with
  | nil => cases i <;> rfl
  | cons s t ih =>
    cases i with
    | zero => rfl
    | succ j => simpa using ih j

theorem cleanup_findEntry {V : Type} (kv : KVStore V) (now : Int) (i : Nat)
    (k : String) (e : ShardEntry V)
    (he : findEntry k (kv.shards.getD i ⟨[]⟩).data = some e)
    (hkeep : ¬e.isExpiredAt now) :
    findEntry k ((kv.cleanup now).shards.getD i ⟨[]⟩).data = some e := by
  show findEntry k ((kv.shards.map (fun s : Shard V => s.evict now)).getD i ⟨[]⟩).data = some e
  rw [getD_map_evict]
  exact findEntry_filter k e _ _ he (by simp [hkeep])

theorem put_findEntry_none {V : Type} (kv : KVStore V) (k : String) (v : V)
    (n : Int) (hN : 0 < kv.shards.length) :
    findEntry k (((kv.put k v none n).shards.getD
      ((kv.put k v none n).findShard k) ⟨[]⟩).data) = some ⟨v, n, -1⟩ := by
  have hi : kv.findShard k < kv.shards.length := Nat.mod_lt _ hN
  have hsh : (kv.put k v none n).findShard k = kv.findShard k := by
    unfold KVStore.findShard
    rw [put_length]
  rw [hsh]
  show findEntry k ((kv.shards.set (kv.findShard k)
    ⟨insertEntry k ⟨v, n, -1⟩ (kv.shards.getD (kv.findShard k) ⟨[]⟩).data⟩).getD
      (kv.findShard k) ⟨[]⟩).data = _
  rw [getD_set_self _ _ _ _ hi]
  exact findEntry_insertEntry_self k _ _

theorem put_findEntry_some {V : Type} (kv : KVStore V) (k : String) (v : V)
    (t : ℚ) (n : Int) (hN : 0 < kv.shards.length) :
    findEntry k (((kv.put k v (some t) n).shards.getD
      ((kv.put k v (some t) n).findShard k) ⟨[]⟩).data) =
        some ⟨v, n, t * 1000⟩ := by
  have hi : kv.findShard k < kv.shards.length := Nat.mod_lt _ hN
  have hsh : (kv.put k v (some t) n).findShard k = kv.findShard k := by
    unfold KVStore.findShard
    rw [put_length]
  rw [hsh]
  show findEntry k ((kv.shards.set (kv.findShard k)
    ⟨insertEntry k ⟨v, n, t * 1000⟩
      (kv.shards.getD (kv.findShard k) ⟨[]⟩).data⟩).getD
        (kv.findShard k) ⟨[]⟩).data = _
  rw [getD_set_self _ _ _ _ hi]
  exact findEntry_insertEntry_self k _ _

theorem put_findEntry_ne {V : Type} (kv : KVStore V) (k k' : String) (v : V)
    (t : Option ℚ) (n : Int) (h : k' ≠ k) (j : Nat) :
    findEntry k' (((kv.put k v t n).shards.getD j ⟨[]⟩).data) =
      findEntry k' ((kv.shards.getD j ⟨[]⟩).data) := by
  by_cases hj : j = kv.findShard k
  · subst hj
    by_cases hlt : kv.findShard k < kv.shards.length
    · show findEntry k' ((kv.shards.set (kv.findShard k) _).getD
        (kv.findShard k) ⟨[]⟩).data = _
      rw [getD_set_self _ _ _ _ hlt]
      exact findEntry_insertEntry_ne k k' _ _ h
    · show findEntry k' ((kv.shards.set (kv.findShard k) _).getD
        (kv.findShard k) ⟨[]⟩).data = _
      rw [List.set_eq_of_length_le (Nat.le_of_not_lt hlt)]
  · show findEntry k' ((kv.shards.set (kv.findShard k) _).getD j ⟨[]⟩).data = _
    rw [getD_set_ne _ _ _ _ _ hj]

theorem delete_findEntry_ne {V : Type} (kv : KVStore V) (k k' : String)
    (h : k' ≠ k) (j : Nat) :
    findEntry k' (((kv.delete k).shards.getD j ⟨[]⟩).data) =
      findEntry k' ((kv.shards.getD j ⟨[]⟩).data) := by
  by_cases hj : j = kv.findShard k
  · subst hj
    by_cases hlt : kv.findShard k < kv.shards.length
    · show findEntry k' ((kv.shards.set (kv.findShard k) _).getD
        (kv.findShard k) ⟨[]⟩).data = _
      rw [getD_set_self _ _ _ _ hlt]
      exact findEntry_eraseKey_ne k k' _ h
    · show findEntry k' ((kv.shards.set (kv.findShard k) _).getD
        (kv.findShard k) ⟨[]⟩).data = _
      rw [List.set_eq_of_length_le (Nat.le_of_not_lt hlt)]
  · show findEntry k' ((kv.shards.set (kv.findShard k) _).getD j ⟨[]⟩).data = _
    rw [getD_set_ne _ _ _ _ _ hj]

theorem get_ok_of_findEntry {V : Type} (kv : KVStore V) (k : String)
    (now : Int) (e : ShardEntry V)
    (he : findEntry k (kv.shards.getD (kv.findShard k) ⟨[]⟩).data = some e)
    (hx : ¬e.isExpiredAt now) : (kv.get k now).1 = GetResult.ok e.value := by
  have he' : findEntry k (kv.shards[kv.findShard k]?.getD ⟨[]⟩).data = some e := by
    rw [← List.getD_eq_getElem?_getD]
    exact he
  simp [KVStore.get, he', hx]

/-- A store state produced only by `Put`s, applied oldest first:
each element is `(key, value, ttl, now)`. -/
def applyPuts {V : Type} (kv : KVStore V)
    (puts : List (String × V × Option ℚ × Int)) : KVStore V :=
  puts.foldl (fun s q => s.put q.1 q.2.1 q.2.2.1 q.2.2.2) kv

theorem applyPuts_length {V : Type}
    (puts : List (String × V × Option ℚ × Int)) :
    ∀ kv : KVStore V, (applyPuts kv puts).shards.length = kv.shards.length := by
  induction puts with
  | nil => intro kv; rfl
  | cons q t ih =>
    intro kv
    exact (ih (kv.put q.1 q.2.1 q.2.2.1 q.2.2.2)).trans
      (put_length kv q.1 q.2.1 q.2.2.1 q.2.2.2)

theorem applyPuts_dims {V : Type}
    (puts : List (String × V × Option ℚ × Int)) :
    ∀ kv : KVStore V,
      (applyPuts kv puts).shardDimensions = kv.shardDimensions := by
  induction puts with
  | nil => intro kv; rfl
  | cons q t ih =>
    intro kv
    exact ih (kv.put q.1 q.2.1 q.2.2.1 q.2.2.2)

theorem get_congr_data {V : Type} (kv kv' : KVStore V) (k : String)
    (now : Int)
    (h : (kv'.shards.getD (kv'.findShard k) ⟨[]⟩).data =
      (kv.shards.getD (kv.findShard k) ⟨[]⟩).data) :
    (kv'.get k now).1 = (kv.get k now).1 := by
  have h' : findEntry k (kv'.shards[kv'.findShard k]?.getD ⟨[]⟩).data =
      findEntry k (kv.shards[kv.findShard k]?.getD ⟨[]⟩).data := by
    rw [← List.getD_eq_getElem?_getD, ← List.getD_eq_getElem?_getD, h]
  cases hfe : findEntry k (kv.shards[kv.findShard k]?.getD ⟨[]⟩).data with
  | none => simp [KVStore.get, hfe, h'.trans hfe]
  | some e =>
    by_cases hx : e.isExpiredAt now <;>
      simp [KVStore.get, hfe, h'.trans hfe, hx]

/-! ## Lemmas about the scenario store `putOnce` -/

theorem NewKVStore_findShard_lt {V : Type} (N : Nat) (dir k : String)
    (hN : 0 < N) : (NewKVStore V N dir).findShard k < N := by
  unfold KVStore.findShard
  simp only [NewKVStore, List.length_replicate]
  exact Nat.mod_lt _ hN

theorem putOnce_shards {V : Type} (N : Nat) (dir k : String) (v : V)
    (t : Int) :
    (putOnce V N dir k v t).shards =
      (List.replicate N (⟨[]⟩ : Shard V)).set
        ((NewKVStore V N dir).findShard k) ⟨[(k, ⟨v, t, -1⟩)]⟩ := by
  have h : (NewKVStore V N dir).shards.getD
      ((NewKVStore V N dir).findShard k) ⟨[]⟩ = (⟨[]⟩ : Shard V) :=
    getD_replicate _ N _
  show (NewKVStore V N dir).shards.set ((NewKVStore V N dir).findShard k)
    ⟨insertEntry k ⟨v, t, -1⟩ ((NewKVStore V N dir).shards.getD
      ((NewKVStore V N dir).findShard k) ⟨[]⟩).data⟩ = _
  rw [h]
  rfl

theorem putOnce_length {V : Type} (N : Nat) (dir k : String) (v : V)
    (t : Int) : (putOnce V N dir k v t).shards.length = N := by
  rw [putOnce_shards]
  simp

theorem putOnce_getD {V : Type} (N : Nat) (dir k : String) (v : V) (t : Int)
    (hN : 0 < N) (p : Nat) :
    (putOnce V N dir k v t).shards.getD p ⟨[]⟩ =
      if p = (NewKVStore V N dir).findShard k then ⟨[(k, ⟨v, t, -1⟩)]⟩
      else ⟨[]⟩ := by
  have hiN := NewKVStore_findShard_lt (V := V) N dir k hN
  rw [putOnce_shards]
  by_cases hp : p = (NewKVStore V N dir).findShard k
  · rw [if_pos hp, hp, getD_set_self _ _ _ _ (by simpa using hiN)]
  · rw [if_neg hp, getD_set_ne _ _ _ _ _ hp, getD_replicate]

theorem putOnce_findShard {V : Type} (N : Nat) (dir k : String) (v : V)
    (t : Int) (k' : String) :
    (putOnce V N dir k v t).findShard k' =
      (NewKVStore V N dir).findShard k' := by
  unfold KVStore.findShard
  rw [putOnce_length]
  simp [NewKVStore]

theorem putOnceFlushed_dims {V : Type} (N : Nat) (dir k : String) (v : V)
    (t : Int) (p : Nat) (hp : p < N) :
    (putOnceFlushed V N dir k v t).1.shardDimensions.getD p 0 =
      ((putOnce V N dir k v t).shards.getD p ⟨[]⟩).data.length := by
  have herr := toDiskGo_noFail_err (putOnce V N dir k v t).shards 0
    (putOnce V N dir k v t).shardDimensions (emptyDisk V)
  have hL := putOnce_length N dir k v t
  have hDlen : (putOnce V N dir k v t).shardDimensions.length = N := by
    show (List.replicate N 0).length = N
    simp
  have h := toDiskGo_dims_of_success (putOnce V N dir k v t).shards 0
    (putOnce V N dir k v t).shardDimensions (emptyDisk V) (fun _ => false)
    herr (by rw [Nat.zero_add, hL, hDlen]) p (by rw [hL]; exact hp)
  rw [Nat.zero_add] at h
  exact h

theorem putOnceFlushed_disk {V : Type} (N : Nat) (dir k : String) (v : V)
    (t : Int) (hN : 0 < N) :
    (putOnceFlushed V N dir k v t).2.disk
        ((putOnce V N dir k v t).findShard k) =
      some [(k, ⟨v, t, -1⟩)] := by
  have hiN := NewKVStore_findShard_lt (V := V) N dir k hN
  have hL := putOnce_length N dir k v t
  have hz := toDiskGo_zero_dims (putOnce V N dir k v t).shards 0
    (putOnce V N dir k v t).shardDimensions (emptyDisk V) (fun _ => false)
    (fun _ => rfl)
    (by
      intro p _
      show (List.replicate N 0).getD (0 + p) 0 = 0
      simp [getD_replicate])
  have hd := hz.2 ((NewKVStore V N dir).findShard k) (by rw [hL]; exact hiN)
  rw [Nat.zero_add] at hd
  have hget := putOnce_getD N dir k v t hN ((NewKVStore V N dir).findShard k)
  rw [if_pos rfl] at hget
  rw [hget] at hd
  simp only [List.isEmpty_cons, if_false, Bool.false_eq_true] at hd
  rw [putOnce_findShard]
  show (toDiskGo (putOnce V N dir k v t).shards 0
    (putOnce V N dir k v t).shardDimensions (emptyDisk V)
    (fun _ => false)).disk ((NewKVStore V N dir).findShard k) =
      some [(k, ⟨v, t, -1⟩)]
  rw [hd]

/-! ## Claim theorems -/

/-- C2: for a key `k` present in the store, `Get(k)` returns
`ExpiredEntry{key, ttl, elapsed}` exactly when the stored entry has
`ttl > 0` and `now - timestamp > ttl` (strict), and the stored value
otherwise; elapsed exactly equal to the ttl is not expired; and `Get`
leaves the store state unchanged. -/
theorem c2_get_expiry_characterization {V : Type} (kv : KVStore V)
    (k : String) (now : Int) (e : ShardEntry V)
    (he : findEntry k (kv.shards.getD (kv.findShard k) ⟨[]⟩).data = some e) :
    (kv.get k now).1 =
      (if e.ttl > 0 ∧ ((now - e.timestamp : Int) : ℚ) > e.ttl
        then GetResult.expired k e.ttl (now - e.timestamp)
        else GetResult.ok e.value) ∧
    (kv.get k now).2 = kv ∧
    (((now - e.timestamp : Int) : ℚ) = e.ttl →
      (kv.get k now).1 = GetResult.ok e.value) := by
  have he' : findEntry k (kv.shards[kv.findShard k]?.getD ⟨[]⟩).data = some e := by
    rw [← List.getD_eq_getElem?_getD]
    exact he
  refine ⟨?_, get_state_unchanged kv k now, ?_⟩
  · by_cases hx : e.ttl > 0 ∧ ((now - e.timestamp : Int) : ℚ) > e.ttl
    · rw [if_pos hx]
      have hx' : e.isExpiredAt now := hx
      simp [KVStore.get, he', hx']
    · rw [if_neg hx]
      have hx' : ¬e.isExpiredAt now := hx
      simp [KVStore.get, he', hx']
  · intro heq
    have hx' : ¬e.isExpiredAt now := by
      intro hc
      have h2 := hc.2
      rw [heq] at h2
      exact lt_irrefl _ h2
    simp [KVStore.get, he', hx']

/-- C2 witness: a concrete store whose entry has `ttl = 2000` ms and
timestamp `100` ms, read at `2200` ms, yields an expired error with
elapsed `2100`. -/
theorem c2_witness :
    ((KVStore.mk (V := Nat) [⟨[("a", ⟨7, 100, 2000⟩)]⟩] "d" [1]).get
        "a" 2200).1 = GetResult.expired "a" 2000 2100 := by
  have h := c2_get_expiry_characterization
    (KVStore.mk (V := Nat) [⟨[("a", ⟨7, 100, 2000⟩)]⟩] "d" [1]) "a" 2200
    ⟨7, 100, 2000⟩ (by decide)
  rw [h.1]
  decide

set_option maxRecDepth 8000 in
/-- C3: `FindShard(k)` equals `crc32_ieee(k) mod N`, is identical across
store instances with the same shard count, and routes the three scenario
keys of a 3-shard store to shards 0, 1 and 2. -/
theorem c3_findShard_routing {V W : Type} (kv : KVStore V) (kv' : KVStore W)
    (k : String) (hlen : kv.shards.length = kv'.shards.length) :
    kv.findShard k = crc32 (utf8Bytes k) % kv.shards.length ∧
    kv.findShard k = kv'.findShard k ∧
    (NewKVStore Nat 3 "dir").findShard "notthekindofthingyouwouldfind" = 0 ∧
    (NewKVStore Nat 3 "dir").findShard "thisisaverylongkey" = 1 ∧
    (NewKVStore Nat 3 "dir").findShard "this is an interesting key" = 2 := by
  refine ⟨rfl, ?_, by decide, by decide, by decide⟩
  unfold KVStore.findShard
  rw [hlen]

/-- C3 witness: two 3-shard stores over different value types and
directories route the scenario key identically. -/
theorem c3_witness :
    (NewKVStore Nat 3 "a").findShard "thisisaverylongkey" =
      (NewKVStore String 3 "b").findShard "thisisaverylongkey" :=
  (c3_findShard_routing (NewKVStore Nat 3 "a") (NewKVStore String 3 "b")
    "thisisaverylongkey" (by decide)).2.1

/-- C6: after `Cleanup` no shard holds an entry that was expired at the
eviction time; entries with `ttl ≤ 0` present before `Cleanup` are still
present afterwards; `Evict` on an empty shard is a no-op. -/
theorem c6_cleanup_eviction {V : Type} (kv : KVStore V) (now : Int) :
    (∀ s ∈ (kv.cleanup now).shards, ∀ p ∈ s.data,
        ¬(p.2.ttl > 0 ∧ ((now - p.2.timestamp : Int) : ℚ) > p.2.ttl)) ∧
    (∀ i : Nat, ∀ p ∈ (kv.shards.getD i ⟨[]⟩).data,
        p.2.ttl ≤ 0 → p ∈ ((kv.cleanup now).shards.getD i ⟨[]⟩).data) ∧
    (∀ t : Int, Shard.evict (V := V) ⟨[]⟩ t = ⟨[]⟩) := by
  refine ⟨?_, ?_, fun t => rfl⟩
  · intro s hs p hp
    simp only [KVStore.cleanup, List.mem_map] at hs
    obtain ⟨a, _, rfl⟩ := hs
    have h2 := (List.mem_filter.mp hp).2
    simp only [Bool.not_eq_true', decide_eq_false_iff_not] at h2
    exact h2
  · intro i p hp httl
    show p ∈ ((kv.shards.map (fun s : Shard V => s.evict now)).getD i ⟨[]⟩).data
    rw [getD_map_evict]
    refine List.mem_filter.mpr ⟨hp, ?_⟩
    simp only [Bool.not_eq_true', decide_eq_false_iff_not]
    exact fun hc => absurd hc.1 (not_lt.mpr httl)

/-- C6 witness: an instance of the no-op conjunct at a concrete shard
and time. -/
theorem c6_witness : Shard.evict (V := Nat) ⟨[]⟩ 5 = ⟨[]⟩ :=
  (c6_cleanup_eviction (NewKVStore Nat 1 "d") 0).2.2 5

/-- C4: a store built from `New(N, dir)` by `Put`s only, written out by
`ToDisk` into an empty directory and reconstructed with
`NewFromDisk(N, dir)`, yields a store whose `Get` agrees with the
original store's `Get` for every key and time (hence for every inserted
key); the `ToDisk` pass succeeds. -/
theorem c4_snapshot_roundtrip {V : Type} (N : Nat) (dir : String)
    (puts : List (String × V × Option ℚ × Int)) (hN : 0 < N) :
    ((applyPuts (NewKVStore V N dir) puts).toDisk (emptyDisk V)
        (fun _ => false)).2.err = none ∧
    ∀ (k : String) (now : Int),
      ((NewKVStoreFromDisk V N dir
          ((applyPuts (NewKVStore V N dir) puts).toDisk (emptyDisk V)
            (fun _ => false)).2.disk).get k now).1 =
        ((applyPuts (NewKVStore V N dir) puts).get k now).1 := by
  set S := applyPuts (NewKVStore V N dir) puts with hS
  have hL : S.shards.length = N :=
    (applyPuts_length puts _).trans (by simp [NewKVStore])
  have hD : S.shardDimensions = List.replicate N 0 := applyPuts_dims puts _
  have hzero : ∀ p, p < S.shards.length →
      S.shardDimensions.getD (0 + p) 0 = 0 := by
    intro p _
    rw [hD]
    simp [getD_replicate]
  have hz := toDiskGo_zero_dims S.shards 0 S.shardDimensions (emptyDisk V)
    (fun _ => false) (fun _ => rfl) hzero
  refine ⟨hz.1, ?_⟩
  intro k now
  apply get_congr_data
  set S' := NewKVStoreFromDisk V N dir
    (S.toDisk (emptyDisk V) (fun _ => false)).2.disk with hS'
  have hL' : S'.shards.length = N := by
    rw [hS']
    simp [NewKVStoreFromDisk]
  have hfs : S'.findShard k = S.findShard k := by
    unfold KVStore.findShard
    rw [hL', hL]
  rw [hfs]
  set i := S.findShard k with hi
  have hiN : i < N := by
    rw [hi]
    unfold KVStore.findShard
    rw [hL]
    exact Nat.mod_lt _ hN
  have hS'get : S'.shards.getD i ⟨[]⟩ =
      (match (S.toDisk (emptyDisk V) (fun _ => false)).2.disk i with
        | none => (⟨[]⟩ : Shard V)
        | some m => ⟨m⟩) := by
    rw [hS']
    exact getD_map_range _ N i _ hiN
  have hdisk := hz.2 i (by rw [hL]; exact hiN)
  rw [Nat.zero_add] at hdisk
  by_cases hemp : (S.shards.getD i ⟨[]⟩).data.isEmpty
  · have hnone : (S.toDisk (emptyDisk V) (fun _ => false)).2.disk i = none := by
      show (toDiskGo S.shards 0 S.shardDimensions (emptyDisk V)
        (fun _ => false)).disk i = none
      rw [hdisk, if_pos hemp]
      rfl
    rw [hS'get, hnone]
    simpa using (List.isEmpty_iff.mp hemp).symm
  · have hsome : (S.toDisk (emptyDisk V) (fun _ => false)).2.disk i =
        some (S.shards.getD i ⟨[]⟩).data := by
      show (toDiskGo S.shards 0 S.shardDimensions (emptyDisk V)
        (fun _ => false)).disk i = some (S.shards.getD i ⟨[]⟩).data
      rw [hdisk, if_neg hemp]
    rw [hS'get, hsome]

/-- C4 witness: one put, flushed and reloaded in a 3-shard store, agrees
on the inserted key. -/
theorem c4_witness :
    ((NewKVStoreFromDisk Nat 3 "dir"
        ((applyPuts (NewKVStore Nat 3 "dir") [("a", 1, none, 0)]).toDisk
          (emptyDisk Nat) (fun _ => false)).2.disk).get "a" 7).1 =
      ((applyPuts (NewKVStore Nat 3 "dir") [("a", 1, none, 0)]).get
        "a" 7).1 :=
  (c4_snapshot_roundtrip 3 "dir" [("a", 1, none, 0)] (by decide)).2 "a" 7

/-- C7: `ToDisk` skips every shard whose current length equals
`shard_sizes[i]`: its file is not written, its dims entry is unchanged,
and it is absent from the written files.  Consequently, from a fresh
store, `Put(k, v1, None)` followed by `ToDisk` writes the affected
shard's file; an immediately repeated `ToDisk` with no intervening
mutation performs no write and changes neither the store nor the
directory; and after an in-place `Put(k, v2, None)` (no cardinality
change), a further `ToDisk` again writes nothing, so the file still
holds the stale `v1` entry. -/
theorem c7_change_detection_skips {V : Type} (N : Nat) (dir k : String)
    (v1 v2 : V) (t1 t2 : Int) (hN : 0 < N) :
    (∀ (kv : KVStore V) (d : Disk V) (w : Nat → Bool) (j : Nat),
        j < kv.shards.length →
        kv.shardDimensions.getD j 0 = (kv.shards.getD j ⟨[]⟩).data.length →
        ((kv.toDisk d w).2.disk j = d j ∧
          j ∉ (kv.toDisk d w).2.writes ∧
          (kv.toDisk d w).1.shardDimensions.getD j 0 =
            kv.shardDimensions.getD j 0)) ∧
    (putOnceFlushed V N dir k v1 t1).2.disk
        ((putOnce V N dir k v1 t1).findShard k) =
      some [(k, ⟨v1, t1, -1⟩)] ∧
    (∀ w2 : Nat → Bool,
      (putOnceFlushed V N dir k v1 t1).1.toDisk
          (putOnceFlushed V N dir k v1 t1).2.disk w2 =
        ((putOnceFlushed V N dir k v1 t1).1,
          ⟨(putOnceFlushed V N dir k v1 t1).1.shardDimensions,
            (putOnceFlushed V N dir k v1 t1).2.disk, [], none⟩)) ∧
    (∀ w2 : Nat → Bool,
      (((putOnceFlushed V N dir k v1 t1).1.put k v2 none t2).toDisk
          (putOnceFlushed V N dir k v1 t1).2.disk w2).2.writes = [] ∧
      (((putOnceFlushed V N dir k v1 t1).1.put k v2 none t2).toDisk
          (putOnceFlushed V N dir k v1 t1).2.disk w2).2.disk
            ((putOnce V N dir k v1 t1).findShard k) =
        some [(k, ⟨v1, t1, -1⟩)]) := by
  have hiN := NewKVStore_findShard_lt (V := V) N dir k hN
  have hL1 := putOnce_length (V := V) N dir k v1 t1
  refine ⟨?_, putOnceFlushed_disk N dir k v1 t1 hN, ?_, ?_⟩
  · intro kv d w j hj hdimj
    have h := toDiskGo_skip_frame kv.shards 0 kv.shardDimensions d w j hj
      (by simpa using hdimj)
    exact ⟨by simpa using h.2.1, by simpa using h.2.2, by simpa using h.1⟩
  · intro w2
    have hmatch : ∀ p, p < (putOnceFlushed V N dir k v1 t1).1.shards.length →
        (putOnceFlushed V N dir k v1 t1).1.shardDimensions.getD (0 + p) 0 =
          ((putOnceFlushed V N dir k v1 t1).1.shards.getD p ⟨[]⟩).data.length := by
      intro p hp
      have hpN : p < N := by
        rw [← hL1]
        exact hp
      rw [Nat.zero_add]
      exact putOnceFlushed_dims N dir k v1 t1 p hpN
    have hall := toDiskGo_all_skip (putOnceFlushed V N dir k v1 t1).1.shards 0
      (putOnceFlushed V N dir k v1 t1).1.shardDimensions
      (putOnceFlushed V N dir k v1 t1).2.disk w2 hmatch
    show ((putOnceFlushed V N dir k v1 t1).1.toDisk
      (putOnceFlushed V N dir k v1 t1).2.disk w2) = _
    simp only [KVStore.toDisk]
    rw [hall]
  · intro w2
    have hfs2 : (putOnceFlushed V N dir k v1 t1).1.findShard k =
        (NewKVStore V N dir).findShard k := putOnce_findShard N dir k v1 t1 k
    have hinner : (putOnceFlushed V N dir k v1 t1).1.shards.getD
        ((NewKVStore V N dir).findShard k) ⟨[]⟩ =
          (⟨[(k, ⟨v1, t1, -1⟩)]⟩ : Shard V) := by
      have h := putOnce_getD N dir k v1 t1 hN ((NewKVStore V N dir).findShard k)
      rw [if_pos rfl] at h
      exact h
    have hins : insertEntry k (⟨v2, t2, -1⟩ : ShardEntry V)
        [(k, ⟨v1, t1, -1⟩)] = [(k, ⟨v2, t2, -1⟩)] := by
      rw [insertEntry, eraseKey_cons, if_pos rfl]
      rfl
    have hget2 : ∀ p : Nat,
        (((putOnceFlushed V N dir k v1 t1).1.put k v2 none t2).shards.getD p
          ⟨[]⟩) =
          if p = (NewKVStore V N dir).findShard k
            then (⟨[(k, ⟨v2, t2, -1⟩)]⟩ : Shard V) else ⟨[]⟩ := by
      intro p
      show (((putOnceFlushed V N dir k v1 t1).1.shards.set
        ((putOnceFlushed V N dir k v1 t1).1.findShard k)
        ⟨insertEntry k ⟨v2, t2, -1⟩
          (((putOnceFlushed V N dir k v1 t1).1.shards.getD
            ((putOnceFlushed V N dir k v1 t1).1.findShard k) ⟨[]⟩).data)⟩).getD
              p ⟨[]⟩) = _
      rw [hfs2, hinner, hins]
      by_cases hp : p = (NewKVStore V N dir).findShard k
      · rw [if_pos hp, hp, getD_set_self _ _ _ _ (by
          rw [show (putOnceFlushed V N dir k v1 t1).1.shards.length = N
            from hL1]
          exact hiN)]
      · rw [if_neg hp, getD_set_ne _ _ _ _ _ hp]
        have h := putOnce_getD N dir k v1 t1 hN p
        rw [if_neg hp] at h
        exact h
    have hL2 : ((putOnceFlushed V N dir k v1 t1).1.put k v2 none
        t2).shards.length = N := by
      rw [put_length]
      exact hL1
    have hmatch2 : ∀ p,
        p < ((putOnceFlushed V N dir k v1 t1).1.put k v2 none
          t2).shards.length →
        ((putOnceFlushed V N dir k v1 t1).1.put k v2 none
          t2).shardDimensions.getD (0 + p) 0 =
          (((putOnceFlushed V N dir k v1 t1).1.put k v2 none
            t2).shards.getD p ⟨[]⟩).data.length := by
      intro p hp
      have hpN : p < N := by
        rw [← hL2]
        exact hp
      rw [Nat.zero_add, hget2 p]
      have hd := putOnceFlushed_dims N dir k v1 t1 p hpN
      have h1 := putOnce_getD N dir k v1 t1 hN p
      show (putOnceFlushed V N dir k v1 t1).1.shardDimensions.getD p 0 = _
      rw [hd, h1]
      by_cases hp0 : p = (NewKVStore V N dir).findShard k <;> simp [hp0]
    have hall2 := toDiskGo_all_skip
      ((putOnceFlushed V N dir k v1 t1).1.put k v2 none t2).shards 0
      ((putOnceFlushed V N dir k v1 t1).1.put k v2 none t2).shardDimensions
      (putOnceFlushed V N dir k v1 t1).2.disk w2 hmatch2
    constructor
    · show (toDiskGo
        ((putOnceFlushed V N dir k v1 t1).1.put k v2 none t2).shards 0
        ((putOnceFlushed V N dir k v1 t1).1.put k v2 none t2).shardDimensions
        (putOnceFlushed V N dir k v1 t1).2.disk w2).writes = []
      rw [hall2]
    · show (toDiskGo
        ((putOnceFlushed V N dir k v1 t1).1.put k v2 none t2).shards 0
        ((putOnceFlushed V N dir k v1 t1).1.put k v2 none t2).shardDimensions
        (putOnceFlushed V N dir k v1 t1).2.disk w2).disk
          ((putOnce V N dir k v1 t1).findShard k) =
        some [(k, ⟨v1, t1, -1⟩)]
      rw [hall2]
      exact putOnceFlushed_disk N dir k v1 t1 hN

/-- C7 witness: the in-place-update conjunct at a concrete store: after
`Put("a", 1)`, `ToDisk`, `Put("a", 2)`, `ToDisk`, nothing is written and
the file still holds the old value `1`. -/
theorem c7_witness :
    (((putOnceFlushed Nat 1 "d" "a" 1 0).1.put "a" 2 none 5).toDisk
        (putOnceFlushed Nat 1 "d" "a" 1 0).2.disk (fun _ => false)).2.writes
      = [] ∧
    (((putOnceFlushed Nat 1 "d" "a" 1 0).1.put "a" 2 none 5).toDisk
        (putOnceFlushed Nat 1 "d" "a" 1 0).2.disk (fun _ => false)).2.disk
          ((putOnce Nat 1 "d" "a" 1 0).findShard "a") =
      some [("a", ⟨1, 0, -1⟩)] :=
  (c7_change_detection_skips 1 "d" "a" 1 2 0 5 (by decide)).2.2.2
    (fun _ => false)

/-- C9: when all keys of a previously flushed shard `i` have been removed,
a failure-free `ToDisk` updates `shard_sizes[i]` to `0` but the empty
shard's `Flush` neither writes nor truncates its file, so the stale
snapshot survives on disk, and `NewFromDisk` over the same directory
reconstructs shard `i` with the deleted entries. -/
theorem c9_stale_snapshot_resurrection {V : Type} (kv : KVStore V)
    (d : Disk V) (i N : Nat) (dir : String)
    (m : List (String × ShardEntry V))
    (hN : kv.shards.length = N) (hdl : kv.shardDimensions.length = N)
    (hi : i < N)
    (hempty : (kv.shards.getD i ⟨[]⟩).data = [])
    (_hdim : kv.shardDimensions.getD i 0 ≠ 0)
    (hfile : d i = some m) :
    (kv.toDisk d (fun _ => false)).1.shardDimensions.getD i 0 = 0 ∧
    i ∉ (kv.toDisk d (fun _ => false)).2.writes ∧
    (kv.toDisk d (fun _ => false)).2.disk i = some m ∧
    ((NewKVStoreFromDisk V N dir
        ((kv.toDisk d (fun _ => false)).2.disk)).shards.getD i ⟨[]⟩).data =
      m := by
  have herr : (toDiskGo kv.shards 0 kv.shardDimensions d
      (fun _ => false)).err = none := toDiskGo_noFail_err _ 0 _ _
  have hiL : i < kv.shards.length := by rw [hN]; exact hi
  have hlen2 : 0 + kv.shards.length ≤ kv.shardDimensions.length := by
    rw [Nat.zero_add, hN, hdl]
  have hdims := toDiskGo_dims_of_success kv.shards 0 kv.shardDimensions d
    (fun _ => false) herr hlen2 i hiL
  rw [Nat.zero_add] at hdims
  have hef := toDiskGo_empty_frame kv.shards 0 kv.shardDimensions d
    (fun _ => false) i hiL hempty
  rw [Nat.zero_add] at hef
  have hdisk : (kv.toDisk d (fun _ => false)).2.disk i = some m := by
    show (toDiskGo kv.shards 0 kv.shardDimensions d
      (fun _ => false)).disk i = some m
    rw [hef.1, hfile]
  refine ⟨?_, hef.2, hdisk, ?_⟩
  · show (toDiskGo kv.shards 0 kv.shardDimensions d
      (fun _ => false)).dims.getD i 0 = 0
    rw [hdims, hempty]
    rfl
  · have hget : (NewKVStoreFromDisk V N dir
        ((kv.toDisk d (fun _ => false)).2.disk)).shards.getD i ⟨[]⟩ =
        (match (kv.toDisk d (fun _ => false)).2.disk i with
          | none => (⟨[]⟩ : Shard V)
          | some l => ⟨l⟩) :=
      getD_map_range _ N i _ hi
    rw [hget, hdisk]

set_option maxRecDepth 4000 in
/-- C9 witness: one shard, `Put("a")`, `ToDisk`, `Delete("a")`, `ToDisk`:
the stale file survives and still holds the deleted entry. -/
theorem c9_witness :
    (((((NewKVStore Nat 1 "d").put "a" 3 none 0).toDisk (emptyDisk Nat)
          (fun _ => false)).1.delete "a").toDisk
        ((((NewKVStore Nat 1 "d").put "a" 3 none 0).toDisk (emptyDisk Nat)
          (fun _ => false)).2.disk) (fun _ => false)).2.disk 0 =
      some [("a", ⟨3, 0, -1⟩)] :=
  (c9_stale_snapshot_resurrection
    ((((NewKVStore Nat 1 "d").put "a" 3 none 0).toDisk (emptyDisk Nat)
      (fun _ => false)).1.delete "a")
    ((((NewKVStore Nat 1 "d").put "a" 3 none 0).toDisk (emptyDisk Nat)
      (fun _ => false)).2.disk)
    0 1 "d" [("a", ⟨3, 0, -1⟩)]
    (by decide) (by decide) (by decide) (by decide) (by decide)
    (by decide)).2.2.1

set_option maxRecDepth 4000 in
/-- C8 counterexample: with one shard holding one entry and a failing
writer, `ToDisk` returns the flush error for shard 0, yet
`shard_sizes[0]` has already been updated from `0` to the unflushed
length `1` and nothing was written: a failed flush does leave
`shard_sizes[i]` reflecting an unflushed length, contrary to the claim. -/
theorem c8_counterexample :
    (((NewKVStore Nat 1 "e").put "a" 1 none 0).toDisk (emptyDisk Nat)
        (fun _ => true)).2.err = some 0 ∧
    (((NewKVStore Nat 1 "e").put "a" 1 none 0).toDisk (emptyDisk Nat)
        (fun _ => true)).1.shardDimensions = [1] ∧
    ((NewKVStore Nat 1 "e").put "a" 1 none 0).shardDimensions = [0] ∧
    (((NewKVStore Nat 1 "e").put "a" 1 none 0).toDisk (emptyDisk Nat)
        (fun _ => true)).2.disk 0 = none := by
  refine ⟨?_, ?_, ?_, ?_⟩ <;> decide

/-- C8 amended: `shard_sizes` is indeed changed by none of `Put`,
`Delete`, `Cleanup`, `Get` (only `ToDisk` updates it), but the update
precedes the flush attempt: when `ToDisk` fails at shard `j`, it returns
with `shard_sizes[j]` already set to the new, unflushed length, the old
value differing from that length, the file of shard `j` unwritten, and
`j` absent from the written files. -/
theorem c8_amended_dims_update {V : Type} (kv : KVStore V) (d : Disk V)
    (w : Nat → Bool) (j : Nat)
    (hdl : kv.shards.length ≤ kv.shardDimensions.length)
    (herr : (kv.toDisk d w).2.err = some j) :
    (∀ (k : String) (v : V) (t : Option ℚ) (n : Int),
        (kv.put k v t n).shardDimensions = kv.shardDimensions ∧
        (kv.delete k).shardDimensions = kv.shardDimensions ∧
        (kv.cleanup n).shardDimensions = kv.shardDimensions ∧
        (kv.get k n).2 = kv) ∧
    ∃ p, p < kv.shards.length ∧ j = p ∧ w j = true ∧
      kv.shardDimensions.getD j 0 ≠ (kv.shards.getD p ⟨[]⟩).data.length ∧
      (kv.toDisk d w).1.shardDimensions.getD j 0 =
        (kv.shards.getD p ⟨[]⟩).data.length ∧
      (kv.toDisk d w).2.disk j = d j ∧
      j ∉ (kv.toDisk d w).2.writes := by
  constructor
  · intro k v t n
    exact ⟨put_dims kv k v t n, delete_dims kv k, cleanup_dims kv n,
      get_state_unchanged kv k n⟩
  · have herr' : (toDiskGo kv.shards 0 kv.shardDimensions d w).err =
        some j := herr
    obtain ⟨p, hp, hj, hwj, _, hdne, hdims, hdisk, hwr⟩ :=
      toDiskGo_err_some kv.shards 0 kv.shardDimensions d w j herr'
        (by rw [Nat.zero_add]; exact hdl)
    rw [Nat.zero_add] at hj
    exact ⟨p, hp, hj, hwj, hdne, hdims, hdisk, hwr⟩

set_option maxRecDepth 4000 in
/-- C8 witness: the amended theorem applied to the failing-writer store:
`Put` leaves `shard_sizes` unchanged there. -/
theorem c8_amended_witness :
    (((NewKVStore Nat 1 "e").put "a" 1 none 0).put "b" 2 none 5).shardDimensions
      = ((NewKVStore Nat 1 "e").put "a" 1 none 0).shardDimensions :=
  ((c8_amended_dims_update ((NewKVStore Nat 1 "e").put "a" 1 none 0)
    (emptyDisk Nat) (fun _ => true) 0 (by decide) (by decide)).1
      "b" 2 none 5).1

/-- C10: a `Put` with an explicitly supplied TTL `t ≤ 0` stores
`ttl = t * 1000 ≤ 0`, and the entry never expires: after any sequence of
`Cleanup`s at any times, `Get` at any time still returns the value. -/
theorem c10_nonpositive_ttl_never_expires {V : Type} (kv : KVStore V)
    (k : String) (v : V) (t : ℚ) (ts : Int) (ht : t ≤ 0)
    (hN : 0 < kv.shards.length) :
    findEntry k (((kv.put k v (some t) ts).shards.getD
        ((kv.put k v (some t) ts).findShard k) ⟨[]⟩).data) =
      some ⟨v, ts, t * 1000⟩ ∧
    (t * 1000 : ℚ) ≤ 0 ∧
    (∀ cleanups : List Int, ∀ now : Int,
      ((cleanups.foldl (fun s n => s.cleanup n) (kv.put k v (some t) ts)).get
          k now).1 = GetResult.ok v) := by
  have httl : (t * 1000 : ℚ) ≤ 0 := by
    have h := mul_le_mul_of_nonneg_right ht (by norm_num : (0 : ℚ) ≤ 1000)
    simpa using h
  have hnx : ∀ now : Int, ¬(⟨v, ts, t * 1000⟩ : ShardEntry V).isExpiredAt now :=
    fun _ hc => absurd hc.1 (not_lt.mpr httl)
  have main : ∀ (cs : List Int) (S : KVStore V),
      S.shards.length = kv.shards.length →
      findEntry k (S.shards.getD (S.findShard k) ⟨[]⟩).data =
        some ⟨v, ts, t * 1000⟩ →
      ∀ now : Int,
        ((cs.foldl (fun s n => s.cleanup n) S).get k now).1 =
          GetResult.ok v := by
    intro cs
    induction cs with
    | nil =>
      intro S _ he now
      exact get_ok_of_findEntry S k now _ he (hnx now)
    | cons c rest ih =>
      intro S hL he now
      have hsh : (S.cleanup c).findShard k = S.findShard k := by
        unfold KVStore.findShard
        rw [cleanup_length]
      apply ih (S.cleanup c) ((cleanup_length S c).trans hL)
      rw [hsh]
      exact cleanup_findEntry S c _ k _ he (hnx c)
  exact ⟨put_findEntry_some kv k v t ts hN, httl,
    fun cs now => main cs (kv.put k v (some t) ts)
      (put_length kv k v (some t) ts) (put_findEntry_some kv k v t ts hN) now⟩

/-- C1: after `Put(k, v, None)` (ttl stored as the sentinel `-1`),
`Get(k)` returns `v` at any time, and it keeps returning `v` after any
sequence of further operations that contains no `Put(k, _, _)` and no
`Delete(k)`. -/
theorem c1_put_get_roundtrip {V : Type} (kv : KVStore V) (d : Disk V)
    (k : String) (v : V) (t0 : Int) (ops : List (Op V))
    (hN : 0 < kv.shards.length)
    (hput : ∀ (v' : V) (t : Option ℚ) (n : Int), Op.put k v' t n ∉ ops)
    (hdel : Op.delete (V := V) k ∉ ops) :
    ∀ now : Int,
      ((execOps (kv.put k v none t0, d) ops).1.get k now).1 =
        GetResult.ok v := by
  have hkeep : ∀ now : Int, ¬(⟨v, t0, -1⟩ : ShardEntry V).isExpiredAt now :=
    fun _ hc => absurd hc.1 (by norm_num)
  have main : ∀ (l : List (Op V)) (S : KVStore V) (dsk : Disk V),
      S.shards.length = kv.shards.length →
      findEntry k (S.shards.getD (S.findShard k) ⟨[]⟩).data =
        some ⟨v, t0, -1⟩ →
      (∀ (v' : V) (t : Option ℚ) (n : Int), Op.put k v' t n ∉ l) →
      Op.delete (V := V) k ∉ l →
      ((execOps (S, dsk) l).1.shards.length = kv.shards.length ∧
        findEntry k ((execOps (S, dsk) l).1.shards.getD
          ((execOps (S, dsk) l).1.findShard k) ⟨[]⟩).data =
            some ⟨v, t0, -1⟩) := by
    intro l
    induction l with
    | nil =>
      intro S dsk hL he _ _
      exact ⟨hL, he⟩
    | cons op rest ih =>
      intro S dsk hL he hp hd
      have hp' : ∀ (v' : V) (t : Option ℚ) (n : Int), Op.put k v' t n ∉ rest :=
        fun v' t n hm => hp v' t n (List.mem_cons_of_mem _ hm)
      have hd' : Op.delete (V := V) k ∉ rest :=
        fun hm => hd (List.mem_cons_of_mem _ hm)
      show ((execOps (execOp (S, dsk) op) rest).1.shards.length = _ ∧ _)
      cases op with
      | put k1 v1 t1 n1 =>
        have hk : k ≠ k1 := by
          intro hc
          subst hc
          exact hp v1 t1 n1 (List.mem_cons_self _ _)
        refine ih (S.put k1 v1 t1 n1) dsk
          ((put_length S k1 v1 t1 n1).trans hL) ?_ hp' hd'
        have hsh : (S.put k1 v1 t1 n1).findShard k = S.findShard k := by
          unfold KVStore.findShard
          rw [put_length]
        rw [hsh, put_findEntry_ne S k1 k v1 t1 n1 hk]
        exact he
      | delete k1 =>
        have hk : k ≠ k1 := by
          intro hc
          subst hc
          exact hd (List.mem_cons_self _ _)
        refine ih (S.delete k1) dsk
          ((delete_length S k1).trans hL) ?_ hp' hd'
        have hsh : (S.delete k1).findShard k = S.findShard k := by
          unfold KVStore.findShard
          rw [delete_length]
        rw [hsh, delete_findEntry_ne S k1 k hk]
        exact he
      | cleanup n =>
        refine ih (S.cleanup n) dsk ((cleanup_length S n).trans hL) ?_ hp' hd'
        have hsh : (S.cleanup n).findShard k = S.findShard k := by
          unfold KVStore.findShard
          rw [cleanup_length]
        rw [hsh]
        exact cleanup_findEntry S n _ k _ he (hkeep n)
      | toDisk w =>
        exact ih (S.toDisk dsk w).1 ((S.toDisk dsk w).2.disk) hL he hp' hd'
  intro now
  have h := main ops (kv.put k v none t0) d (put_length kv k v none t0)
    (put_findEntry_none kv k v t0 hN) hput hdel
  exact get_ok_of_findEntry _ k now _ h.2 (hkeep now)

/-- C1 witness: in a 2-shard store, after `Put("x", 7, None)` the value
survives a put of another key, a cleanup, and a delete of another key. -/
theorem c1_witness :
    ((execOps ((NewKVStore Nat 2 "d").put "x" 7 none 0, emptyDisk Nat)
        [Op.put "y" 1 none 1, Op.cleanup 50, Op.delete "y"]).1.get
          "x" 42).1 = GetResult.ok 7 := by
  refine c1_put_get_roundtrip (NewKVStore Nat 2 "d") (emptyDisk Nat)
    "x" 7 0 _ (by decide) ?_ ?_ 42
  · intro v' t n h
    simp only [List.mem_cons, List.not_mem_nil, or_false] at h
    rcases h with h | h | h
    · exact absurd (by injection h) (by decide : ¬("x" = "y"))
    · cases h
    · cases h
  · intro h
    simp only [List.mem_cons, List.not_mem_nil, or_false] at h
    rcases h with h | h | h
    · cases h
    · cases h
    · exact absurd (by injection h) (by decide : ¬("x" = "y"))

/-- C10 witness: with `t = 0`, after one cleanup the value is still
returned. -/
theorem c10_witness :
    (((List.foldl (fun s n => s.cleanup n)
        ((NewKVStore Nat 1 "d").put "a" 3 (some 0) 0) [5]).get "a" 99).1 =
      GetResult.ok 3) :=
  (c10_nonpositive_ttl_never_expires (NewKVStore Nat 1 "d") "a" 3 0 0
    (by decide) (by decide)).2.2 [5] 99
